import Mathlib

/-!
Verification development for the pylicense license-header engine
(`src/pylicense/license_handler.py`).

File contents are modelled as `List Char` (Python `str`).  Pure model
functions mirror the Python source; filesystem reads/writes are made
explicit by passing file content in and returning the resulting content.
A `KeyError` escaping `str.format` is modelled as `Except.error ()`; the
`OSError`/`UnicodeDecodeError` branches (pure I/O) are outside the model.
-/

/-- Characters Python's `str.strip()` / `\s` treat as whitespace (ASCII part). -/
def pyIsSpace (c : Char) : Bool :=
  c = ' ' || c = '\t' || c = '\n' || c = '\r' || c = '\x0b' || c = '\x0c'

/-- `str.strip()`: drop leading and trailing whitespace. -/
def pyStrip (l : List Char) : List Char :=
  ((l.dropWhile pyIsSpace).reverse.dropWhile pyIsSpace).reverse

/-- `content.split("\n")`: split on every newline; never returns `[]`. -/
def splitNl : List Char → List (List Char)
  | [] => [[]]
  | c :: rest =>
    match splitNl rest with
    | [] => [[c]]
    | l :: ls => if c = '\n' then [] :: l :: ls else (c :: l) :: ls

/-- `"\n".join(ls)`. -/
def joinNl : List (List Char) → List Char
  | [] => []
  | [l] => l
  | l :: l₂ :: ls => l ++ '\n' :: joinNl (l₂ :: ls)

/-- Characters Python's `str.splitlines()` treats as line breaks. -/
def isLineBreak (c : Char) : Bool :=
  c = '\n' || c = '\r' || c = '\x0b' || c = '\x0c' || c = '\x1c' || c = '\x1d' ||
  c = '\x1e' || c = '\u0085' || c = '\u2028' || c = '\u2029'

/-- `content.splitlines()`: split on line breaks, `\r\n` counting as one,
with no trailing empty string for a trailing line break. -/
def pySplitlines : List Char → List (List Char)
  | [] => []
  | [c] => if isLineBreak c then [[]] else [[c]]
  | c :: d :: rest =>
    if c = '\r' ∧ d = '\n' then [] :: pySplitlines rest
    else if isLineBreak c then [] :: pySplitlines (d :: rest)
    else
      match pySplitlines (d :: rest) with
      | [] => [[c]]
      | l :: ls => (c :: l) :: ls

/-- Python's `needle in hay` substring test. -/
def listContains (hay needle : List Char) : Bool :=
  needle.isPrefixOf hay ||
    match hay with
    | [] => false
    | _ :: t => listContains t needle

theorem length_dropWhile_le' (p : Char → Bool) (l : List Char) :
    (l.dropWhile p).length ≤ l.length := by
  induction l with
  | nil => simp [List.dropWhile]
  | cons c t ih =>
    by_cases h : p c
    · simp only [List.dropWhile, h]
      exact Nat.le_succ_of_le ih
    · simp [List.dropWhile, h]

/-- Helper for `collapseWs`: the flag records whether we are inside a
whitespace run whose single replacement space was already emitted. -/
def collapseWsAux : Bool → List Char → List Char
  | _, [] => []
  | inRun, c :: rest =>
    if pyIsSpace c then
      if inRun then collapseWsAux true rest
      else ' ' :: collapseWsAux true rest
    else c :: collapseWsAux false rest

/-- `re.sub(r"\s+", " ", s)`: collapse every whitespace run to one space. -/
def collapseWs (l : List Char) : List Char := collapseWsAux false l

/-- Decimal digit expansion with explicit fuel (structural, so that the
kernel can evaluate it). -/
def natToCharsAux : Nat → Nat → List Char
  | 0, _ => []
  | fuel + 1, n =>
    if n < 10 then [Nat.digitChar n]
    else natToCharsAux fuel (n / 10) ++ [Nat.digitChar (n % 10)]

/-- `str(n)` for a natural number. -/
def natToChars (n : Nat) : List Char := natToCharsAux (n + 1) n

/-- `int(s)` on a run of decimal digits. -/
def digitsToNat (l : List Char) : Nat :=
  l.foldl (fun acc c => 10 * acc + (c.toNat - 48)) 0

/-- Python regex word character (`\w`), ASCII fragment. -/
def isWordChar (c : Char) : Bool := c.isAlphanum || c = '_'

/-- A `\b` boundary to the left: the previous character (none at line start)
must not be a word character. -/
def boundaryOk : Option Char → Bool
  | none => true
  | some c => !isWordChar c

/-- A `\b` boundary to the right: the next character (none at line end)
must not be a word character. -/
def headOk : List Char → Bool
  | [] => true
  | c :: _ => !isWordChar c

/-- Does `re` match `\b\d{4}\b` at exactly this position (given the previous
character)?  Returns the four digits and the remainder. -/
def matchAt (prev : Option Char) : List Char → Option (List Char × List Char)
  | d1 :: d2 :: d3 :: d4 :: rest =>
    if boundaryOk prev && d1.isDigit && d2.isDigit && d3.isDigit && d4.isDigit && headOk rest
    then some ([d1, d2, d3, d4], rest) else none
  | _ => none

/-- Leftmost `\b\d{4}\b` match: splits the line as prefix / digits / suffix. -/
def findYearSplit (prev : Option Char) : List Char → Option (List Char × List Char × List Char)
  | [] => none
  | c :: rest =>
    match matchAt prev (c :: rest) with
    | some (digits, suffix) => some ([], digits, suffix)
    | none =>
      match findYearSplit (some c) rest with
      | some (p, d, s) => some (c :: p, d, s)
      | none => none

/-- The condition under which `matchAt` succeeds, as a predicate on the list shape. -/
def matchCond (prev : Option Char) (l : List Char) : Bool :=
  boundaryOk prev && decide (4 ≤ l.length) && (l.take 4).all Char.isDigit && headOk (l.drop 4)

/-- Configuration for file patterns and their comment styles
(`FilePattern` in the source). -/
structure FilePattern where
  extensions : List String
  comment_start : List Char
  comment_end : List Char

/-- The registered file patterns (`PATTERNS` in the source, same order). -/
def PATTERNS : List FilePattern := [
  ⟨[".py", ".sh", ".bash", ".ps1"], "#".data, "".data⟩,
  ⟨[".js", ".jsx", ".tsx", ".ts", ".c", ".cpp", ".h", ".hpp"], "//".data, "".data⟩,
  ⟨[".html", ".xml", ".svg", ".ui", ".qrc"], "<!--".data, "-->".data⟩,
  ⟨[".css", ".scss", ".less"], "/*".data, "*/".data⟩,
  ⟨[".java", ".kt", ".scala"], "//".data, "".data⟩,
  ⟨[".rb", ".rake"], "#".data, "".data⟩,
  ⟨[".rs", ".go"], "//".data, "".data⟩,
  ⟨[".php"], "//".data, "".data⟩]

/-- The MIT license template body (`LICENSE_TEMPLATES["mit"]`). -/
def mit_template : List Char :=
  ("The MIT License (MIT)\n\nCopyright (c) {year} {author}\n\nPermission is hereby granted, free of charge, to any person obtaining a copy\nof this software and associated documentation files (the \"Software\"), to deal\nin the Software without restriction, including without limitation the rights\nto use, copy, modify, merge, publish, distribute, sublicense, and/or sell\ncopies of the Software, and to permit persons to whom the Software is\nfurnished to do so, subject to the following conditions:\n\nThe above copyright notice and this permission notice shall be included in all\ncopies or substantial portions of the Software.\n\nTHE SOFTWARE IS PROVIDED \"AS IS\", WITHOUT WARRANTY OF ANY KIND, EXPRESS OR\nIMPLIED, INCLUDING BUT NOT LIMITED TO THE WARRANTIES OF MERCHANTABILITY,\nFITNESS FOR A PARTICULAR PURPOSE AND NONINFRINGEMENT. IN NO EVENT SHALL THE\nAUTHORS OR COPYRIGHT HOLDERS BE LIABLE FOR ANY CLAIM, DAMAGES OR OTHER\nLIABILITY, WHETHER IN AN ACTION OF CONTRACT, TORT OR OTHERWISE, ARISING FROM,\nOUT OF OR IN CONNECTION WITH THE SOFTWARE OR THE USE OR OTHER DEALINGS IN THE\nSOFTWARE.").data

/-- The GPL-3 license template body (`LICENSE_TEMPLATES["gpl3"]`). -/
def gpl3_template : List Char :=
  ("Copyright (C) {year} {author}\n\nThis program is free software: you can redistribute it and/or modify\nit under the terms of the GNU General Public License as published by\nthe Free Software Foundation, either version 3 of the License, or\n(at your option) any later version.\n\nThis program is distributed in the hope that it will be useful,\nbut WITHOUT ANY WARRANTY; without even the implied warranty of\nMERCHANTABILITY or FITNESS FOR A PARTICULAR PURPOSE.  See the\nGNU General Public License for more details.\n\nYou should have received a copy of the GNU General Public License\nalong with this program.  If not, see <https://www.gnu.org/licenses/>.").data

/-- The Apache-2.0 license template body (`LICENSE_TEMPLATES["apache2"]`). -/
def apache2_template : List Char :=
  ("Copyright {year} {author}\n\nLicensed under the Apache License, Version 2.0 (the \"License\");\nyou may not use this file except in compliance with the License.\nYou may obtain a copy of the License at\n\n    http://www.apache.org/licenses/LICENSE-2.0\n\nUnless required by applicable law or agreed to in writing, software\ndistributed under the License is distributed on an \"AS IS\" BASIS,\nWITHOUT WARRANTIES OR CONDITIONS OF ANY KIND, either express or implied.\nSee the License for the specific language governing permissions and\nlimitations under the License.").data

/-- The registered license templates (`LICENSE_TEMPLATES`), keyed by name. -/
def LICENSE_TEMPLATES : List (List Char × List Char) :=
  [("mit".data, mit_template), ("gpl3".data, gpl3_template), ("apache2".data, apache2_template)]

/-- `LICENSE_TEMPLATES.get(license_template, license_template)`. -/
def resolve_template (arg : List Char) : List Char :=
  match LICENSE_TEMPLATES.lookup arg with
  | some t => t
  | none => arg

/-- `_get_comment_style`: first registered pattern with a case-insensitive
suffix match on the path wins. -/
def get_comment_style (path : List Char) : Option (List Char × List Char) :=
  PATTERNS.findSome? fun p =>
    if p.extensions.any (fun ext => ext.data.isSuffixOf (path.map Char.toLower)) then
      some (p.comment_start, p.comment_end)
    else none

/-- The final path component (`Path.name`, POSIX separators). -/
def path_name (p : List Char) : List Char :=
  (p.reverse.takeWhile (fun c => c ≠ '/')).reverse

/-- `Path.suffix`: the extension of the final component, empty when the last
dot is the first character or there is nothing after it. -/
def path_suffix (p : List Char) : List Char :=
  let name := path_name p
  let revExt := name.reverse.takeWhile (fun c => c ≠ '.')
  if revExt.length < name.length ∧ 0 < name.length - 1 - revExt.length ∧ 0 < revExt.length then
    '.' :: revExt.reverse
  else []

/-- `_is_special_xml_file`: XML-preamble-sensitive extensions. -/
def is_special_xml_file (path : List Char) : Bool :=
  [".ui".data, ".qrc".data, ".xml".data, ".svg".data, ".html".data].contains
    ((path_suffix path).map Char.toLower)

/-- `line.strip().startswith(("<?xml", "<!DOCTYPE"))`. -/
def isXmlDecl (l : List Char) : Bool :=
  "<?xml".data.isPrefixOf (pyStrip l) || "<!DOCTYPE".data.isPrefixOf (pyStrip l)

/-- Fuel-indexed, accumulator-based version of `pyFormat` (structural and
tail-recursive, so that the kernel can evaluate it; fuel at least the list
length never runs out).  The accumulator holds the output reversed. -/
def pyFormatAux (env : String → Option (List Char)) :
    Nat → List Char → List Char → Option (List Char)
  | _, acc, [] => some acc.reverse
  | 0, _, _ :: _ => none
  | fuel + 1, acc, c :: rest =>
    if c = '{' then
      match rest.dropWhile (fun x => x ≠ '}') with
      | [] => none
      | _ :: rest' =>
        match env (String.mk (rest.takeWhile (fun x => x ≠ '}'))) with
        | none => none
        | some v => pyFormatAux env fuel (v.reverse ++ acc) rest'
    else pyFormatAux env fuel (c :: acc) rest

/-- Python `str.format` with named fields: replace each `\x7bname\x7d` by the
environment's value for `name`; `none` when a field is unresolved or a brace
is unclosed (`KeyError` / `ValueError`). -/
def pyFormat (env : String → Option (List Char)) (l : List Char) : Option (List Char) :=
  pyFormatAux env l.length [] l

/-- Fuel-indexed version of `phRefs` (mirrors `pyFormatAux`'s parse). -/
def phRefsAux : Nat → List Char → List String
  | _, [] => []
  | 0, _ :: _ => []
  | fuel + 1, c :: rest =>
    if c = '{' then
      match rest.dropWhile (fun x => x ≠ '}') with
      | [] => []
      | _ :: rest' => String.mk (rest.takeWhile (fun x => x ≠ '}')) :: phRefsAux fuel rest'
    else phRefsAux fuel rest

/-- The field names a template body references. -/
def phRefs (l : List Char) : List String := phRefsAux l.length l

/-- The replacement mapping built by `_format_license_text`: `year` and
`author` plus caller-supplied custom variables (which override both). -/
def fmt_env (author : List Char) (year : Nat) (custom : List (String × List Char))
    (name : String) : Option (List Char) :=
  match custom.lookup name with
  | some v => some v
  | none =>
    if name = "year" then some (natToChars year)
    else if name = "author" then some author
    else none

/-- `_format_license_text` (with the year supplied explicitly; the Python
default fills in the current year before formatting). -/
def format_license_text (template author : List Char) (year : Nat)
    (custom : List (String × List Char)) : Option (List Char) :=
  pyFormat (fmt_env author year custom) template

/-- `_create_license_header`: format the template, strip, split into lines,
and wrap each line in the comment style.  `none` when formatting fails. -/
def create_license_header (template author : List Char) (year : Nat)
    (custom : List (String × List Char)) (cs ce : List Char) :
    Option (List (List Char)) :=
  match format_license_text template author year custom with
  | none => none
  | some txt =>
    let lines := splitNl (pyStrip txt)
    if ce.isEmpty then
      some (lines.map fun l => if (pyStrip l).isEmpty then cs else cs ++ ' ' :: l)
    else
      some ([cs] ++ (lines.map fun l => if (pyStrip l).isEmpty then [' '] else ' ' :: l) ++ [ce])

/-- The license indicator substrings scanned by `_has_license_header`. -/
def license_indicators : List (List Char) :=
  ["license".data, "copyright".data, "mit".data, "gpl".data, "apache".data, "©".data]

/-- `str.lower()` on list-of-characters content. -/
def lowerL (l : List Char) : List Char := l.map Char.toLower

/-- `_has_license_header`: some of the first 10 lines starts with the
comment marker (case-insensitively) and contains an indicator substring. -/
def has_license_header (content cs : List Char) : Bool :=
  ((splitNl content).take 10).any fun line =>
    (lowerL cs).isPrefixOf (lowerL line) &&
      license_indicators.any (fun ind => listContains (lowerL line) ind)

/-- One line's contribution to `_extract_year_from_header`: the first
`\b\d\x7b4\x7d\b` run of a line starting with the marker. -/
def line_year (cs line : List Char) : Option Nat :=
  if cs.isPrefixOf line then
    match findYearSplit none line with
    | some (_, d, _) => some (digitsToNat d)
    | none => none
  else none

/-- `_extract_year_from_header`: first 10 lines, first marker-prefixed line
with a 4-digit run wins. -/
def extract_year_from_header (content cs : List Char) : Option Nat :=
  ((splitNl content).take 10).findSome? (line_year cs)

/-- `year_pattern.sub(str(new_year), line, count=1)` guarded by the
marker-prefix test of `_update_license_year_in_content`. -/
def rewrite_line (cs : List Char) (newYear : Nat) (line : List Char) : List Char :=
  if cs.isPrefixOf line then
    match findYearSplit none line with
    | some (pre, _, suf) => pre ++ natToChars newYear ++ suf
    | none => line
  else line

/-- Apply `rewrite_line` to the first `n` lines, as the source's
`for i in range(min(10, len(lines)))` loop does. -/
def rewriteFirst (cs : List Char) (newYear : Nat) : Nat → List (List Char) → List (List Char)
  | _, [] => []
  | 0, ls => ls
  | n + 1, l :: ls => rewrite_line cs newYear l :: rewriteFirst cs newYear n ls

/-- `_update_license_year_in_content`. -/
def update_license_year_in_content (content cs : List Char) (newYear : Nat) : List Char :=
  joinNl (rewriteFirst cs newYear 10 (splitNl content))

/-- `_process_file_with_license` on in-memory content.  `Except.error ()` is
a `KeyError` escaping `str.format`; `.ok none` means the file is skipped
(unsupported or already licensed); `.ok (some c)` means `c` is written. -/
def process_file_with_license (path template author : List Char) (year : Nat)
    (custom : List (String × List Char)) (force : Bool) (content : List Char) :
    Except Unit (Option (List Char)) :=
  match get_comment_style path with
  | none => .ok none
  | some (cs, ce) =>
    if has_license_header content cs && !force then .ok none
    else
      match create_license_header template author year custom cs ce with
      | none => .error ()
      | some header_lines =>
        match pySplitlines content with
        | [] => .ok (some (joinNl header_lines ++ ['\n']))
        | l0 :: rest =>
          if "#!".data.isPrefixOf l0 then
            .ok (some (l0 ++ '\n' :: (joinNl header_lines ++ '\n' :: '\n' :: joinNl rest)))
          else if is_special_xml_file path && ((l0 :: rest).take 2).any isXmlDecl then
            .ok (some (joinNl ((l0 :: rest).takeWhile isXmlDecl) ++ '\n' ::
              (joinNl header_lines ++ '\n' :: '\n' :: joinNl ((l0 :: rest).dropWhile isXmlDecl))))
          else if force then
            .ok (some (joinNl header_lines ++ '\n' :: '\n' :: joinNl (l0 :: rest)))
          else
            .ok (some (joinNl header_lines ++ '\n' :: '\n' :: content))

/-- `apply_license` restricted to a single file: resolve the template name,
skip binary files, and map the processor's outcome to a count.  The second
component is the resulting on-disk content. -/
def apply_license_file (isBin : Bool) (path arg author : List Char) (year : Nat)
    (custom : List (String × List Char)) (force : Bool) (content : List Char) :
    Except Unit (Nat × List Char) :=
  if isBin then .ok (0, content)
  else
    match process_file_with_license path (resolve_template arg) author year custom force content with
    | .error e => .error e
    | .ok none => .ok (0, content)
    | .ok (some nc) => .ok (1, nc)

/-- `_update_single_file_year` on in-memory content; the second component is
the resulting on-disk content. -/
def update_single_file_year (isBin : Bool) (path content : List Char) (newYear : Nat) :
    Nat × List Char :=
  if isBin then (0, content)
  else
    match get_comment_style path with
    | none => (0, content)
    | some (cs, _) =>
      if has_license_header content cs then
        match extract_year_from_header content cs with
        | some y =>
          if y ≠ newYear then (1, update_license_year_in_content content cs newYear)
          else (0, content)
        | none => (0, content)
      else (0, content)

/-- `_get_license_key_phrases`. -/
def get_license_key_phrases (template : List Char) : List (List Char) :=
  if template = "mit".data then
    ["mit license".data, "permission is hereby granted".data, "without restriction".data,
     "the software is provided as is".data]
  else if template = "gpl3".data then
    ["free software".data, "gnu general public license".data, "without warranty".data,
     "see the gnu general public license".data]
  else if template = "apache2".data then
    ["apache license".data, "licensed under the apache license".data,
     "without warranties or conditions".data, "licenses this file".data]
  else ["copyright".data, "license".data]

/-- The normalisation `_check_file_license` applies before phrase matching:
first 20 lines, lowercased, whitespace runs collapsed. -/
def normalize_first20 (content : List Char) : List Char :=
  collapseWs (lowerL (joinNl ((splitNl content).take 20)))

/-- `_check_file_license` on in-memory content (`phrase_matches >=
len(license_key_phrases) / 2` is Python real division). -/
def check_file_license (isBin : Bool) (path content : List Char)
    (phrases : List (List Char)) : Bool :=
  if isBin then false
  else
    match get_comment_style path with
    | none => false
    | some (cs, _) =>
      if !has_license_header content cs then false
      else
        let m := (phrases.filter (fun p => listContains (normalize_first20 content) p)).length
        decide ((m : ℚ) ≥ (phrases.length : ℚ) / 2)

/-- The spec's `buildHeaderAsText(template, comment)`: the synthesized header
block rendered as text (instantiated at author `Author`, year 2023, no
custom variables; the registered templates reference no other fields). -/
def buildHeaderAsText (template cs ce : List Char) : List Char :=
  match create_license_header template "Author".data 2023 [] cs ce with
  | some hls => joinNl hls
  | none => []

theorem splitNl_ne_nil (l : List Char) : splitNl l ≠ [] := by
  cases l with
  | nil => simp [splitNl]
  | cons c rest =>
    simp only [splitNl]
    cases h : splitNl rest with
    | nil => simp
    | cons a as =>
      by_cases hc : c = '\n' <;> simp [hc]

theorem splitNl_cons_eq (c : Char) (rest : List Char) {a : List Char} {as : List (List Char)}
    (h : splitNl rest = a :: as) :
    splitNl (c :: rest) = if c = '\n' then [] :: a :: as else (c :: a) :: as := by
  simp only [splitNl, h]

theorem joinNl_cons (a : List Char) (ls : List (List Char)) (h : ls ≠ []) :
    joinNl (a :: ls) = a ++ '\n' :: joinNl ls := by
  cases ls with
  | nil => exact absurd rfl h
  | cons b bs => rfl

theorem joinNl_cons_head (c : Char) (l : List Char) (ls : List (List Char)) :
    joinNl ((c :: l) :: ls) = c :: joinNl (l :: ls) := by
  cases ls with
  | nil => rfl
  | cons b bs => rfl

theorem joinNl_splitNl (l : List Char) : joinNl (splitNl l) = l := by
  induction l with
  | nil => rfl
  | cons c rest ih =>
    cases h : splitNl rest with
    | nil => exact absurd h (splitNl_ne_nil rest)
    | cons a as =>
      rw [h] at ih
      rw [splitNl_cons_eq c rest h]
      by_cases hc : c = '\n'
      · subst hc
        rw [if_pos rfl, joinNl_cons [] (a :: as) (List.cons_ne_nil a as)]
        simpa using ih
      · rw [if_neg hc, joinNl_cons_head]
        simpa using ih

theorem not_nl_mem_splitNl (l : List Char) : ∀ s ∈ splitNl l, '\n' ∉ s := by
  induction l with
  | nil =>
    intro s hs
    simp only [splitNl, List.mem_singleton] at hs
    subst hs; simp
  | cons c rest ih =>
    intro s hs
    cases h : splitNl rest with
    | nil => exact absurd h (splitNl_ne_nil rest)
    | cons a as =>
      rw [splitNl_cons_eq c rest h] at hs
      by_cases hc : c = '\n'
      · subst hc
        rw [if_pos rfl] at hs
        rcases List.mem_cons.mp hs with h1 | h1
        · subst h1; simp
        · exact ih s (h ▸ h1)
      · rw [if_neg hc] at hs
        rcases List.mem_cons.mp hs with h1 | h1
        · subst h1
          intro hmem
          rcases List.mem_cons.mp hmem with h2 | h2
          · exact hc h2.symm
          · exact ih a (h ▸ List.mem_cons_self a as) h2
        · exact ih s (h ▸ List.mem_cons_of_mem a h1)

theorem splitNl_of_not_mem {l : List Char} (h : '\n' ∉ l) : splitNl l = [l] := by
  induction l with
  | nil => rfl
  | cons c rest ih =>
    have hc : c ≠ '\n' := fun hc => h (hc ▸ List.mem_cons_self c rest)
    have hr : '\n' ∉ rest := fun hr => h (List.mem_cons_of_mem c hr)
    rw [splitNl_cons_eq c rest (ih hr), if_neg hc]

theorem splitNl_append_nl {a : List Char} (b : List Char) (h : '\n' ∉ a) :
    splitNl (a ++ '\n' :: b) = a :: splitNl b := by
  induction a with
  | nil =>
    simp only [List.nil_append]
    cases hb : splitNl b with
    | nil => exact absurd hb (splitNl_ne_nil b)
    | cons x xs => rw [splitNl_cons_eq '\n' b hb, if_pos rfl]
  | cons c t ih =>
    have hc : c ≠ '\n' := fun hc => h (hc ▸ List.mem_cons_self c t)
    have ht : '\n' ∉ t := fun hr => h (List.mem_cons_of_mem c hr)
    have ih' := ih ht
    rw [List.cons_append]
    cases hb : splitNl b with
    | nil => exact absurd hb (splitNl_ne_nil b)
    | cons x xs =>
      rw [hb] at ih'
      rw [splitNl_cons_eq c (t ++ '\n' :: b) ih', if_neg hc]

theorem splitNl_joinNl (ls : List (List Char)) (hne : ls ≠ [])
    (h : ∀ s ∈ ls, '\n' ∉ s) : splitNl (joinNl ls) = ls := by
  induction ls with
  | nil => exact absurd rfl hne
  | cons a t ih =>
    cases t with
    | nil => exact splitNl_of_not_mem (h a (List.mem_cons_self a []))
    | cons b bs =>
      rw [joinNl_cons a (b :: bs) (by simp)]
      rw [splitNl_append_nl _ (h a (List.mem_cons_self a _))]
      rw [ih (by simp) (fun s hs => h s (List.mem_cons_of_mem a hs))]

theorem splitNl_join_append (hls : List (List Char)) (r : List Char) (hne : hls ≠ [])
    (h : ∀ s ∈ hls, '\n' ∉ s) :
    splitNl (joinNl hls ++ '\n' :: r) = hls ++ splitNl r := by
  induction hls with
  | nil => exact absurd rfl hne
  | cons a t ih =>
    cases t with
    | nil =>
      simp only [joinNl, List.singleton_append]
      exact splitNl_append_nl _ (h a (List.mem_cons_self a []))
    | cons b bs =>
      rw [joinNl_cons a (b :: bs) (by simp), List.append_assoc, List.cons_append]
      rw [splitNl_append_nl _ (h a (List.mem_cons_self a _))]
      rw [ih (by simp) (fun s hs => h s (List.mem_cons_of_mem a hs))]
      rfl

theorem natToCharsAux_fuel : ∀ f1 f2 n : Nat, n < f1 → n < f2 →
    natToCharsAux f1 n = natToCharsAux f2 n := by
  intro f1
  induction f1 with
  | zero => intro f2 n h1 _; omega
  | succ f1 ih =>
    intro f2 n h1 h2
    cases f2 with
    | zero => omega
    | succ f2 =>
      simp only [natToCharsAux]
      by_cases hn : n < 10
      · rw [if_pos hn, if_pos hn]
      · have hd : n / 10 < n := Nat.div_lt_self (by omega) (by omega)
        rw [if_neg hn, if_neg hn, ih f2 (n / 10) (by omega) (by omega)]

theorem natToChars_base {n : Nat} (h : n < 10) : natToChars n = [Nat.digitChar n] := by
  unfold natToChars
  simp only [natToCharsAux]
  rw [if_pos h]

theorem natToChars_step {n : Nat} (h : ¬n < 10) :
    natToChars n = natToChars (n / 10) ++ [Nat.digitChar (n % 10)] := by
  have hd : n / 10 < n := Nat.div_lt_self (by omega) (by omega)
  show natToCharsAux (n + 1) n = natToCharsAux (n / 10 + 1) (n / 10) ++ [Nat.digitChar (n % 10)]
  rw [show natToCharsAux (n + 1) n =
      (if n < 10 then [Nat.digitChar n]
       else natToCharsAux n (n / 10) ++ [Nat.digitChar (n % 10)]) from rfl]
  rw [if_neg h]
  rw [natToCharsAux_fuel n (n / 10 + 1) (n / 10) (by omega) (by omega)]

theorem digitChar_isDigit {r : Nat} (h : r < 10) : (Nat.digitChar r).isDigit = true := by
  interval_cases r <;> decide

theorem digitChar_toNat {r : Nat} (h : r < 10) : (Nat.digitChar r).toNat = 48 + r := by
  interval_cases r <;> decide

theorem natToChars_all_digit (n : Nat) : ∀ c ∈ natToChars n, c.isDigit = true := by
  induction n using Nat.strong_induction_on with
  | _ n ih =>
    intro c hc
    by_cases h : n < 10
    · rw [natToChars_base h] at hc
      simp only [List.mem_singleton] at hc
      subst hc
      exact digitChar_isDigit h
    · rw [natToChars_step h] at hc
      rcases List.mem_append.mp hc with h1 | h1
      · exact ih (n / 10) (Nat.div_lt_self (by omega) (by omega)) c h1
      · simp only [List.mem_singleton] at h1
        subst h1
        exact digitChar_isDigit (Nat.mod_lt n (by omega))

theorem natToChars_ne_nil (n : Nat) : natToChars n ≠ [] := by
  by_cases h : n < 10
  · rw [natToChars_base h]; simp
  · rw [natToChars_step h]; simp

theorem not_nl_mem_natToChars (n : Nat) : '\n' ∉ natToChars n := by
  intro h
  have := natToChars_all_digit n '\n' h
  simp [Char.isDigit] at this

theorem digitsToNat_append (a : List Char) (c : Char) :
    digitsToNat (a ++ [c]) = 10 * digitsToNat a + (c.toNat - 48) := by
  simp [digitsToNat, List.foldl_append]

theorem digitsToNat_natToChars (n : Nat) : digitsToNat (natToChars n) = n := by
  induction n using Nat.strong_induction_on with
  | _ n ih =>
    by_cases h : n < 10
    · rw [natToChars_base h]
      simp only [digitsToNat, List.foldl_cons, List.foldl_nil]
      rw [digitChar_toNat h]
      omega
    · rw [natToChars_step h, digitsToNat_append]
      rw [ih (n / 10) (Nat.div_lt_self (by omega) (by omega))]
      rw [digitChar_toNat (Nat.mod_lt n (by omega))]
      omega

theorem natToChars_length_lt10 {n : Nat} (h : n < 10) : (natToChars n).length = 1 := by
  rw [natToChars_base h]; rfl

theorem natToChars_length2 {n : Nat} (h1 : 10 ≤ n) (h2 : n ≤ 99) :
    (natToChars n).length = 2 := by
  rw [natToChars_step (by omega)]
  rw [List.length_append, natToChars_length_lt10 (show n / 10 < 10 by omega)]
  rfl

theorem natToChars_length3 {n : Nat} (h1 : 100 ≤ n) (h2 : n ≤ 999) :
    (natToChars n).length = 3 := by
  rw [natToChars_step (by omega)]
  rw [List.length_append,
    natToChars_length2 (show 10 ≤ n / 10 by omega) (show n / 10 ≤ 99 by omega)]
  rfl

theorem natToChars_length4 {n : Nat} (h1 : 1000 ≤ n) (h2 : n ≤ 9999) :
    (natToChars n).length = 4 := by
  rw [natToChars_step (by omega)]
  rw [List.length_append,
    natToChars_length3 (show 100 ≤ n / 10 by omega) (show n / 10 ≤ 999 by omega)]
  rfl

theorem list_len4 {α : Type} {l : List α} (h : l.length = 4) :
    ∃ a b c d, l = [a, b, c, d] := by
  rcases l with _ | ⟨a, _ | ⟨b, _ | ⟨c, _ | ⟨d, _ | ⟨e, t⟩⟩⟩⟩⟩ <;> simp at h
  exact ⟨a, b, c, d, rfl⟩

theorem isWordChar_of_digit {c : Char} (h : c.isDigit = true) : isWordChar c = true := by
  simp [isWordChar, Char.isAlphanum, h]

theorem matchAt_sound {prev : Option Char} {l D suf : List Char}
    (h : matchAt prev l = some (D, suf)) :
    l = D ++ suf ∧ D.length = 4 ∧ (∀ c ∈ D, c.isDigit = true) ∧
      boundaryOk prev = true ∧ headOk suf = true := by
  match l with
  | [] => simp [matchAt] at h
  | [_] => simp [matchAt] at h
  | [_, _] => simp [matchAt] at h
  | [_, _, _] => simp [matchAt] at h
  | d1 :: d2 :: d3 :: d4 :: rest =>
    simp only [matchAt] at h
    by_cases hc : (boundaryOk prev && d1.isDigit && d2.isDigit && d3.isDigit && d4.isDigit &&
        headOk rest) = true
    · rw [if_pos hc] at h
      simp only [Option.some.injEq, Prod.mk.injEq] at h
      obtain ⟨rfl, rfl⟩ := h
      simp only [Bool.and_eq_true] at hc
      obtain ⟨⟨⟨⟨⟨b1, b2⟩, b3⟩, b4⟩, b5⟩, b6⟩ := hc
      refine ⟨rfl, rfl, ?_, b1, b6⟩
      intro c hc
      rcases hc with _ | ⟨_, _ | ⟨_, _ | ⟨_, _ | ⟨_, h⟩⟩⟩⟩ <;> first
        | exact b2 | exact b3 | exact b4 | exact b5 | cases h
    · rw [if_neg hc] at h
      cases h

theorem matchAt_construct {prev : Option Char} {D suf : List Char}
    (hlen : D.length = 4) (hd : ∀ c ∈ D, c.isDigit = true)
    (hb : boundaryOk prev = true) (hh : headOk suf = true) :
    matchAt prev (D ++ suf) = some (D, suf) := by
  obtain ⟨a, b, c, d, rfl⟩ := list_len4 hlen
  simp only [List.cons_append, List.nil_append, matchAt]
  have hcond : (boundaryOk prev && a.isDigit && b.isDigit && c.isDigit && d.isDigit &&
      headOk suf) = true := by
    simp [hb, hh, hd a (by simp), hd b (by simp), hd c (by simp), hd d (by simp)]
  rw [if_pos hcond]

theorem matchAt_none_iff {prev : Option Char} {l : List Char} :
    matchAt prev l = none ↔ matchCond prev l = false := by
  match l with
  | [] => simp [matchAt, matchCond]
  | [_] => simp [matchAt, matchCond]
  | [_, _] => simp [matchAt, matchCond]
  | [_, _, _] => simp [matchAt, matchCond]
  | d1 :: d2 :: d3 :: d4 :: rest =>
    have ht : (d1 :: d2 :: d3 :: d4 :: rest).take 4 = [d1, d2, d3, d4] := rfl
    have hdr : (d1 :: d2 :: d3 :: d4 :: rest).drop 4 = rest := rfl
    have hlen : decide (4 ≤ (d1 :: d2 :: d3 :: d4 :: rest).length) = true := by
      simp
    simp only [matchAt, matchCond, ht, hdr, hlen, List.all_cons, List.all_nil]
    by_cases hc : (boundaryOk prev && d1.isDigit && d2.isDigit && d3.isDigit && d4.isDigit &&
        headOk rest) = true
    · rw [if_pos hc]
      simp only [Bool.and_eq_true] at hc
      obtain ⟨⟨⟨⟨⟨b1, b2⟩, b3⟩, b4⟩, b5⟩, b6⟩ := hc
      simp [b1, b2, b3, b4, b5, b6]
    · rw [if_neg hc]
      have hc' : (boundaryOk prev && d1.isDigit && d2.isDigit && d3.isDigit && d4.isDigit &&
          headOk rest) = false := by
        revert hc
        cases boundaryOk prev <;> cases d1.isDigit <;> cases d2.isDigit <;> cases d3.isDigit <;>
          cases d4.isDigit <;> cases headOk rest <;> simp
      simp only [Bool.and_eq_false_iff] at hc' ⊢
      constructor
      · intro _
        tauto
      · intro _
        trivial

theorem matchCond_congr (prev : Option Char) (x D D' suf : List Char)
    (hD : D.length = 4) (hDd : ∀ c ∈ D, c.isDigit = true)
    (hD' : D'.length = 4) (hD'd : ∀ c ∈ D', c.isDigit = true) :
    matchCond prev (x ++ D ++ suf) = matchCond prev (x ++ D' ++ suf) := by
  obtain ⟨e, f, g, h, rfl⟩ := list_len4 hD
  obtain ⟨e', f', g', h', rfl⟩ := list_len4 hD'
  have de := hDd e (by simp)
  have df := hDd f (by simp)
  have dg := hDd g (by simp)
  have dh := hDd h (by simp)
  have de' := hD'd e' (by simp)
  have df' := hD'd f' (by simp)
  have dg' := hD'd g' (by simp)
  have dh' := hD'd h' (by simp)
  rcases x with _ | ⟨a, _ | ⟨b, _ | ⟨c, _ | ⟨d, x'⟩⟩⟩⟩
  · simp [matchCond, headOk, de, df, dg, dh, de', df', dg', dh', Nat.le_add_left]
  · simp [matchCond, headOk, isWordChar_of_digit dh, isWordChar_of_digit dh']
  · simp [matchCond, headOk, isWordChar_of_digit dg, isWordChar_of_digit dg']
  · simp [matchCond, headOk, isWordChar_of_digit df, isWordChar_of_digit df']
  · rcases x' with _ | ⟨y, x''⟩
    · simp [matchCond, headOk, isWordChar_of_digit de, isWordChar_of_digit de']
    · simp [matchCond, headOk, List.length_append]

theorem findYearSplit_sound : ∀ (l : List Char) (prev : Option Char) (pre D suf : List Char),
    findYearSplit prev l = some (pre, D, suf) →
    l = pre ++ D ++ suf ∧ D.length = 4 ∧ (∀ c ∈ D, c.isDigit = true) := by
  intro l
  induction l with
  | nil => intro prev pre D suf h; simp [findYearSplit] at h
  | cons c rest ih =>
    intro prev pre D suf h
    simp only [findYearSplit] at h
    cases hm : matchAt prev (c :: rest) with
    | some ds =>
      obtain ⟨dg, sf⟩ := ds
      obtain ⟨hl, hlen, hdig, _, _⟩ := matchAt_sound hm
      simp only [hm, Option.some.injEq, Prod.mk.injEq] at h
      obtain ⟨rfl, rfl, rfl⟩ := h
      exact ⟨by simpa using hl, hlen, hdig⟩
    | none =>
      simp only [hm] at h
      cases hr : findYearSplit (some c) rest with
      | some pds =>
        obtain ⟨p, d, s⟩ := pds
        obtain ⟨hl, hlen, hdig⟩ := ih (some c) p d s hr
        simp only [hr, Option.some.injEq, Prod.mk.injEq] at h
        obtain ⟨rfl, rfl, rfl⟩ := h
        exact ⟨by simp [hl], hlen, hdig⟩
      | none =>
        simp only [hr] at h
        exact Option.noConfusion h

theorem findYearSplit_cons (prev : Option Char) (c : Char) (rest : List Char) :
    findYearSplit prev (c :: rest) =
      match matchAt prev (c :: rest) with
      | some (digits, suffix) => some ([], digits, suffix)
      | none =>
        match findYearSplit (some c) rest with
        | some (p, d, s) => some (c :: p, d, s)
        | none => none := rfl

theorem findYearSplit_rewrite : ∀ (pre : List Char) (prev : Option Char) (D D' suf : List Char),
    D'.length = 4 → (∀ c ∈ D', c.isDigit = true) →
    findYearSplit prev (pre ++ D ++ suf) = some (pre, D, suf) →
    findYearSplit prev (pre ++ D' ++ suf) = some (pre, D', suf) := by
  intro pre
  induction pre with
  | nil =>
    intro prev D D' suf h4 hd h
    obtain ⟨_, hDlen, hDdig⟩ := findYearSplit_sound _ _ _ _ _ h
    rw [List.nil_append] at h ⊢
    obtain ⟨e, f, g, hh, rfl⟩ := list_len4 hDlen
    rw [List.cons_append, findYearSplit_cons] at h
    cases hm : matchAt prev (e :: ([f, g, hh] ++ suf)) with
    | some ds =>
      obtain ⟨dg, sf⟩ := ds
      simp only [hm, Option.some.injEq, Prod.mk.injEq] at h
      obtain ⟨-, h2, h3⟩ := h
      rw [h2, h3] at hm
      obtain ⟨_, _, _, hb, hho⟩ := matchAt_sound hm
      obtain ⟨a, b, c, d, rfl⟩ := list_len4 h4
      have hm2 : matchAt prev ([a, b, c, d] ++ suf) = some ([a, b, c, d], suf) :=
        matchAt_construct h4 hd hb hho
      rw [List.cons_append] at hm2 ⊢
      rw [findYearSplit_cons]
      simp only [hm2]
    | none =>
      simp only [hm] at h
      cases hr : findYearSplit (some e) ([f, g, hh] ++ suf) with
      | some pds =>
        obtain ⟨p, d, s⟩ := pds
        simp only [hr, Option.some.injEq, Prod.mk.injEq] at h
        exact absurd h.1 (List.cons_ne_nil e p)
      | none =>
        simp only [hr] at h
        exact Option.noConfusion h
  | cons c pre' ih =>
    intro prev D D' suf h4 hd h
    obtain ⟨_, hDlen, hDdig⟩ := findYearSplit_sound _ _ _ _ _ h
    simp only [List.cons_append] at h ⊢
    rw [findYearSplit_cons] at h
    rw [findYearSplit_cons]
    cases hm : matchAt prev (c :: (pre' ++ D ++ suf)) with
    | some ds =>
      obtain ⟨dg, sf⟩ := ds
      simp only [hm, Option.some.injEq, Prod.mk.injEq] at h
      exact absurd h.1 (Ne.symm (List.cons_ne_nil c pre'))
    | none =>
      simp only [hm] at h
      cases hr : findYearSplit (some c) (pre' ++ D ++ suf) with
      | some pds =>
        obtain ⟨p, d, s⟩ := pds
        simp only [hr, Option.some.injEq, Prod.mk.injEq] at h
        obtain ⟨h1, rfl, rfl⟩ := h
        have hp : p = pre' := by
          have := congrArg List.tail h1
          simpa using this
        subst hp
        have hm' : matchAt prev (c :: (p ++ D' ++ s)) = none := by
          rw [matchAt_none_iff] at hm ⊢
          have hcg := matchCond_congr prev (c :: p) d D' s hDlen hDdig h4 hd
          simp only [List.cons_append] at hcg
          rw [← hcg]
          exact hm
        have hres := ih (some c) d D' s h4 hd hr
        simp only [hm', hres]
      | none =>
        simp only [hr] at h
        exact Option.noConfusion h

theorem prefix_digit_swap {m pre D D' suf : List Char}
    (hm : ∀ c ∈ m, c.isDigit = false) (hD : D ≠ []) (hDd : ∀ c ∈ D, c.isDigit = true)
    (h : m.isPrefixOf (pre ++ D ++ suf) = true) :
    m.isPrefixOf (pre ++ D' ++ suf) = true := by
  rw [List.isPrefixOf_iff_prefix] at h ⊢
  have hpre : m <+: pre := by
    rw [List.append_assoc] at h
    obtain ⟨t, ht⟩ := h
    rcases List.append_eq_append_iff.mp ht with ⟨a', ha1, _⟩ | ⟨c', hc1, hc2⟩
    · exact ⟨a', ha1.symm⟩
    · rcases c' with _ | ⟨x, c''⟩
      · rw [List.append_nil] at hc1
        exact hc1 ▸ List.prefix_refl m
      · rcases D with _ | ⟨e, D₁⟩
        · exact absurd rfl hD
        · have hx : x = e := by
            rw [List.cons_append, List.cons_append] at hc2
            exact (List.cons.injEq _ _ _ _ ▸ hc2).1.symm
          have hxm : x ∈ m := by
            rw [hc1]
            exact List.mem_append.mpr (Or.inr (List.mem_cons_self x c''))
          have hfalse := hm x hxm
          rw [hx] at hfalse
          rw [hDd e (List.mem_cons_self e D₁)] at hfalse
          exact Bool.noConfusion hfalse
  rw [List.append_assoc]
  exact hpre.trans (List.prefix_append pre (D' ++ suf))

theorem line_year_none_rewrite {cs l : List Char} {Y : Nat} (h : line_year cs l = none) :
    rewrite_line cs Y l = l := by
  unfold line_year at h
  unfold rewrite_line
  by_cases hp : cs.isPrefixOf l = true
  · rw [if_pos hp] at h ⊢
    cases hf : findYearSplit none l with
    | some pds =>
      obtain ⟨p, d, s⟩ := pds
      simp only [hf] at h
      exact absurd h (by simp)
    | none => simp only [hf]
  · rw [if_neg hp]

theorem line_year_some_rewrite {cs l : List Char} {y Y : Nat}
    (hm : ∀ c ∈ cs, c.isDigit = false) (hY1 : 1000 ≤ Y) (hY2 : Y ≤ 9999)
    (h : line_year cs l = some y) :
    line_year cs (rewrite_line cs Y l) = some Y := by
  unfold line_year at h
  by_cases hp : cs.isPrefixOf l = true
  · rw [if_pos hp] at h
    cases hf : findYearSplit none l with
    | none =>
      simp only [hf] at h
      exact Option.noConfusion h
    | some pds =>
      obtain ⟨p, D, s⟩ := pds
      obtain ⟨hl, hDlen, hDdig⟩ := findYearSplit_sound _ _ _ _ _ hf
      have hrw : rewrite_line cs Y l = p ++ natToChars Y ++ s := by
        unfold rewrite_line
        rw [if_pos hp, hf]
      have hY4 : (natToChars Y).length = 4 := natToChars_length4 hY1 hY2
      have hYd : ∀ c ∈ natToChars Y, c.isDigit = true := natToChars_all_digit Y
      have hDne : D ≠ [] := by
        intro hDnil
        rw [hDnil] at hDlen
        simp at hDlen
      have hp' : cs.isPrefixOf (p ++ natToChars Y ++ s) = true := by
        rw [hl] at hp
        exact prefix_digit_swap hm hDne hDdig hp
      have hf' : findYearSplit none (p ++ natToChars Y ++ s) = some (p, natToChars Y, s) := by
        apply findYearSplit_rewrite p none D (natToChars Y) s hY4 hYd
        rw [← hl]
        exact hf
      rw [hrw]
      unfold line_year
      rw [if_pos hp']
      simp only [hf', digitsToNat_natToChars]
  · rw [if_neg hp] at h
    exact Option.noConfusion h

theorem rewrite_line_no_nl {cs l : List Char} {Y : Nat} (h : '\n' ∉ l) :
    '\n' ∉ rewrite_line cs Y l := by
  unfold rewrite_line
  by_cases hp : cs.isPrefixOf l = true
  · rw [if_pos hp]
    cases hf : findYearSplit none l with
    | some pds =>
      obtain ⟨p, D, s⟩ := pds
      obtain ⟨hl, -, -⟩ := findYearSplit_sound _ _ _ _ _ hf
      simp only [hf]
      rw [hl] at h
      intro hmem
      rcases List.mem_append.mp hmem with h1 | h1
      · rcases List.mem_append.mp h1 with h2 | h2
        · exact h (List.mem_append.mpr (Or.inl (List.mem_append.mpr (Or.inl h2))))
        · exact not_nl_mem_natToChars Y h2
      · exact h (List.mem_append.mpr (Or.inr h1))
    | none =>
      simp only [hf]
      exact h
  · rw [if_neg hp]
    exact h

theorem findSome_map_rewrite {cs : List Char} {Y : Nat}
    (hm : ∀ c ∈ cs, c.isDigit = false) (hY1 : 1000 ≤ Y) (hY2 : Y ≤ 9999) :
    ∀ L : List (List Char), (L.findSome? (line_year cs)).isSome = true →
    (L.map (rewrite_line cs Y)).findSome? (line_year cs) = some Y := by
  intro L
  induction L with
  | nil => intro h; simp [List.findSome?] at h
  | cons l L' ih =>
    intro h
    rw [List.map_cons, List.findSome?_cons]
    cases hl : line_year cs l with
    | some y =>
      rw [line_year_some_rewrite hm hY1 hY2 hl]
    | none =>
      rw [line_year_none_rewrite hl]
      rw [hl]
      apply ih
      rwa [List.findSome?_cons, hl] at h

theorem rewriteFirst_take (cs : List Char) (Y : Nat) :
    ∀ (n : Nat) (ls : List (List Char)),
    (rewriteFirst cs Y n ls).take n = (ls.take n).map (rewrite_line cs Y) := by
  intro n
  induction n with
  | zero => intro ls; simp
  | succ n ih =>
    intro ls
    cases ls with
    | nil => simp [rewriteFirst]
    | cons l t => simp [rewriteFirst, List.take_succ_cons, ih t]

theorem rewriteFirst_no_nl {cs : List Char} {Y : Nat} :
    ∀ (n : Nat) (ls : List (List Char)), (∀ l ∈ ls, '\n' ∉ l) →
    ∀ s ∈ rewriteFirst cs Y n ls, '\n' ∉ s := by
  intro n
  induction n with
  | zero =>
    intro ls h s hs
    cases ls with
    | nil => simp [rewriteFirst] at hs
    | cons l t => exact h s hs
  | succ n ih =>
    intro ls h s hs
    cases ls with
    | nil => simp [rewriteFirst] at hs
    | cons l t =>
      simp only [rewriteFirst, List.mem_cons] at hs
      rcases hs with rfl | hs
      · exact rewrite_line_no_nl (h l (List.mem_cons_self l t))
      · exact ih t (fun x hx => h x (List.mem_cons_of_mem l hx)) s hs

theorem rewriteFirst_ne_nil {cs : List Char} {Y : Nat} {n : Nat} {ls : List (List Char)}
    (h : ls ≠ []) : rewriteFirst cs Y n ls ≠ [] := by
  cases ls with
  | nil => exact absurd rfl h
  | cons l t =>
    cases n with
    | zero => simp [rewriteFirst]
    | succ n => simp [rewriteFirst]

/-- C3 counterexample: the claim fails for arbitrary integer years.  At
content `# 1234` with marker `#`, a year is extractable (1234), but after
rewriting the year to 5 the content reads `# 5`, from which no
`\b\d\x7b4\x7d\b` year can be extracted, so the round trip yields `none`,
not `some 5`. -/
theorem c3_counterexample :
    (extract_year_from_header "# 1234".data "#".data).isSome = true ∧
    extract_year_from_header
      (update_license_year_in_content "# 1234".data "#".data 5) "#".data ≠ some 5 := by
  constructor
  · decide
  · decide

/-- C3 (amended): for every content string, every comment-start marker that
contains no decimal digit, and every four-digit year Y (1000 ≤ Y ≤ 9999):
if extracting a year from the content with that marker yields some year,
then extracting a year from the result of rewriting the year to Y in that
content yields exactly Y. -/
theorem c3_year_rewrite_roundtrip (content marker : List Char) (Y : Nat)
    (hmark : ∀ c ∈ marker, c.isDigit = false)
    (hY1 : 1000 ≤ Y) (hY2 : Y ≤ 9999)
    (h : (extract_year_from_header content marker).isSome = true) :
    extract_year_from_header (update_license_year_in_content content marker Y) marker
      = some Y := by
  unfold extract_year_from_header at h ⊢
  unfold update_license_year_in_content
  have hnl : ∀ s ∈ splitNl content, '\n' ∉ s := not_nl_mem_splitNl content
  have hne : splitNl content ≠ [] := splitNl_ne_nil content
  have hnl' : ∀ s ∈ rewriteFirst marker Y 10 (splitNl content), '\n' ∉ s :=
    rewriteFirst_no_nl 10 (splitNl content) hnl
  have hne' : rewriteFirst marker Y 10 (splitNl content) ≠ [] := rewriteFirst_ne_nil hne
  rw [splitNl_joinNl _ hne' hnl']
  rw [rewriteFirst_take]
  exact findSome_map_rewrite hmark hY1 hY2 ((splitNl content).take 10) h

/-- C3 witness: the amended round trip at a concrete licensed file. -/
theorem c3_witness :
    extract_year_from_header
      (update_license_year_in_content "# Copyright 2020\ncode".data "#".data 2025) "#".data
      = some 2025 :=
  c3_year_rewrite_roundtrip "# Copyright 2020\ncode".data "#".data 2025
    (by decide) (by decide) (by decide) (by decide)

/-- C4: for every supported, non-binary file whose content passes the
license-header presence test for its comment style, applying a license with
force = false returns 0 and leaves the file content identical. -/
theorem c4_skip_keeps_bytes (path arg author content cs ce : List Char) (year : Nat)
    (custom : List (String × List Char))
    (hstyle : get_comment_style path = some (cs, ce))
    (hhdr : has_license_header content cs = true) :
    apply_license_file false path arg author year custom false content =
      .ok (0, content) := by
  simp [apply_license_file, process_file_with_license, hstyle, hhdr]

/-- C4 witness: a concrete already-licensed Python file is left untouched. -/
theorem c4_witness :
    apply_license_file false "a.py".data "mit".data "New".data 2024 [] false
      "# Copyright 2020 Old\ncode".data = .ok (0, "# Copyright 2020 Old\ncode".data) :=
  c4_skip_keeps_bytes "a.py".data "mit".data "New".data "# Copyright 2020 Old\ncode".data
    "#".data "".data 2024 [] (by decide) (by decide)

/-- C9: when the content already passes the header-presence test, processing
with force = false returns the skip outcome for every template — including a
template whose formatting would fail — because the already-licensed
short-circuit precedes header construction; in particular no error is
raised. -/
theorem c9_short_circuit_before_format (path template author content cs ce : List Char)
    (year : Nat) (custom : List (String × List Char))
    (hstyle : get_comment_style path = some (cs, ce))
    (hhdr : has_license_header content cs = true) :
    process_file_with_license path template author year custom false content = .ok none ∧
    process_file_with_license path template author year custom false content ≠
      .error () := by
  have h : process_file_with_license path template author year custom false content =
      .ok none := by
    simp [process_file_with_license, hstyle, hhdr]
  exact ⟨h, by simp [h]⟩

/-- C9 witness: a template with an unsupplied placeholder does not raise on
an already-licensed file. -/
theorem c9_witness :
    process_file_with_license "a.py".data "{broken}".data "A".data 2024 [] false
      "# Copyright 2020\ncode".data = .ok none :=
  (c9_short_circuit_before_format "a.py".data "{broken}".data "A".data
    "# Copyright 2020\ncode".data "#".data "".data 2024 [] (by decide) (by decide)).1

/-- C5: the per-file year update rewrites the file and reports 1 exactly
when the file is non-binary with a resolvable comment style, the
header-presence test succeeds, a year is extractable, and it differs from
the target; in every other case it reports 0 and the content is
unchanged. -/
theorem c5_update_year_exact (isBin : Bool) (path content : List Char) (Y : Nat) :
    (∀ cs ce y, isBin = false → get_comment_style path = some (cs, ce) →
      has_license_header content cs = true → extract_year_from_header content cs = some y →
      y ≠ Y → update_single_file_year isBin path content Y =
        (1, update_license_year_in_content content cs Y)) ∧
    ((update_single_file_year isBin path content Y).1 = 0 →
      (update_single_file_year isBin path content Y).2 = content) ∧
    ((update_single_file_year isBin path content Y).1 = 1 →
      isBin = false ∧ ∃ cs ce y, get_comment_style path = some (cs, ce) ∧
        has_license_header content cs = true ∧
        extract_year_from_header content cs = some y ∧ y ≠ Y) ∧
    ((update_single_file_year isBin path content Y).1 = 0 ∨
      (update_single_file_year isBin path content Y).1 = 1) := by
  cases isBin with
  | true =>
    have hres : update_single_file_year true path content Y = (0, content) := by
      simp [update_single_file_year]
    refine ⟨?_, ?_, ?_, ?_⟩
    · intro cs ce y hfalse
      cases hfalse
    · intro _
      rw [hres]
    · intro h1
      rw [hres] at h1
      cases h1
    · left
      rw [hres]
  | false =>
    cases hsty : get_comment_style path with
    | none =>
      have hres : update_single_file_year false path content Y = (0, content) := by
        simp [update_single_file_year, hsty]
      refine ⟨?_, ?_, ?_, ?_⟩
      · intro cs ce y _ hstyle
        cases hstyle
      · intro _
        rw [hres]
      · intro h1
        rw [hres] at h1
        cases h1
      · left
        rw [hres]
    | some p =>
      obtain ⟨cs₀, ce₀⟩ := p
      by_cases hh : has_license_header content cs₀ = true
      · cases hex : extract_year_from_header content cs₀ with
        | none =>
          have hres : update_single_file_year false path content Y = (0, content) := by
            simp [update_single_file_year, hsty, hh, hex]
          refine ⟨?_, ?_, ?_, ?_⟩
          · intro cs ce y _ hstyle _ hext _
            simp only [Option.some.injEq, Prod.mk.injEq] at hstyle
            obtain ⟨rfl, rfl⟩ := hstyle
            rw [hex] at hext
            cases hext
          · intro _
            rw [hres]
          · intro h1
            rw [hres] at h1
            cases h1
          · left
            rw [hres]
        | some y₀ =>
          by_cases hy : y₀ = Y
          · have hres : update_single_file_year false path content Y = (0, content) := by
              simp [update_single_file_year, hsty, hh, hex, hy]
            refine ⟨?_, ?_, ?_, ?_⟩
            · intro cs ce y _ hstyle _ hext hy'
              simp only [Option.some.injEq, Prod.mk.injEq] at hstyle
              obtain ⟨rfl, rfl⟩ := hstyle
              rw [hex] at hext
              obtain ⟨rfl⟩ := Option.some.injEq _ _ ▸ hext
              exact absurd hy hy'
            · intro _
              rw [hres]
            · intro h1
              rw [hres] at h1
              cases h1
            · left
              rw [hres]
          · have hres : update_single_file_year false path content Y =
                (1, update_license_year_in_content content cs₀ Y) := by
              simp [update_single_file_year, hsty, hh, hex, hy]
            refine ⟨?_, ?_, ?_, ?_⟩
            · intro cs ce y _ hstyle _ hext _
              simp only [Option.some.injEq, Prod.mk.injEq] at hstyle
              obtain ⟨rfl, rfl⟩ := hstyle
              exact hres
            · intro h1
              rw [hres] at h1
              cases h1
            · intro _
              exact ⟨rfl, cs₀, ce₀, y₀, rfl, hh, hex, hy⟩
            · right
              rw [hres]
      · have hh' : has_license_header content cs₀ = false := by
          revert hh
          cases has_license_header content cs₀ <;> simp
        have hres : update_single_file_year false path content Y = (0, content) := by
          simp [update_single_file_year, hsty, hh']
        refine ⟨?_, ?_, ?_, ?_⟩
        · intro cs ce y _ hstyle hhdr
          simp only [Option.some.injEq, Prod.mk.injEq] at hstyle
          obtain ⟨rfl, rfl⟩ := hstyle
          rw [hh'] at hhdr
          cases hhdr
        · intro _
          rw [hres]
        · intro h1
          rw [hres] at h1
          cases h1
        · left
          rw [hres]

/-- C5 witness: a concrete file with an outdated year is rewritten and
reported as 1. -/
theorem c5_witness :
    update_single_file_year false "a.py".data "# Copyright 2020 A\npass".data 2025 =
      (1, update_license_year_in_content "# Copyright 2020 A\npass".data "#".data 2025) :=
  (c5_update_year_exact false "a.py".data "# Copyright 2020 A\npass".data 2025).1
    "#".data "".data 2020 rfl (by decide) (by decide) (by decide) (by decide)

/-- C6: the per-file verification check returns true exactly when the file
is eligible (non-binary, resolvable comment style), the header-presence
test succeeds, and the number of the template's key phrases found in the
normalised first 20 lines is at least half the total number of key phrases
(inclusive threshold on real division). -/
theorem c6_check_file_license_iff (isBin : Bool) (path content tname : List Char) :
    check_file_license isBin path content (get_license_key_phrases tname) = true ↔
      (isBin = false ∧ ∃ cs ce, get_comment_style path = some (cs, ce) ∧
        has_license_header content cs = true ∧
        (((get_license_key_phrases tname).filter
            (fun p => listContains (normalize_first20 content) p)).length : ℚ) ≥
          ((get_license_key_phrases tname).length : ℚ) / 2) := by
  cases isBin with
  | true => simp [check_file_license]
  | false =>
    cases hsty : get_comment_style path with
    | none => simp [check_file_license, hsty]
    | some p =>
      obtain ⟨cs₀, ce₀⟩ := p
      by_cases hh : has_license_header content cs₀ = true
      · simp [check_file_license, hsty, hh, ge_iff_le, decide_eq_true_eq]
      · have hh' : has_license_header content cs₀ = false := by
          revert hh
          cases has_license_header content cs₀ <;> simp
        simp [check_file_license, hsty, hh']

/-- C6 witness: a concrete MIT-headered Python file passes the check with
2 of 4 key phrases found. -/
theorem c6_witness :
    check_file_license false "a.py".data
      "# The MIT License (MIT)\n# Permission is hereby granted, free of charge\ncode".data
      (get_license_key_phrases "mit".data) = true :=
  (c6_check_file_license_iff false "a.py".data
      "# The MIT License (MIT)\n# Permission is hereby granted, free of charge\ncode".data
      "mit".data).mpr
    ⟨rfl, "#".data, [], by decide, by decide, by
      have h1 : (List.filter
          (fun p => listContains (normalize_first20
            "# The MIT License (MIT)\n# Permission is hereby granted, free of charge\ncode".data) p)
          (get_license_key_phrases "mit".data)).length = 2 := by decide
      have h2 : (get_license_key_phrases "mit".data).length = 4 := by decide
      rw [ge_iff_le, h1, h2]
      norm_num⟩

theorem pyFormatAux_refs (env : String → Option (List Char)) :
    ∀ (fuel : Nat) (acc l s : List Char),
    pyFormatAux env fuel acc l = some s → ∀ n ∈ phRefsAux fuel l, (env n).isSome = true := by
  intro fuel
  induction fuel with
  | zero =>
    intro acc l s h n hn
    cases l with
    | nil => simp [phRefsAux] at hn
    | cons c rest => simp [phRefsAux] at hn
  | succ fuel ih =>
    intro acc l s h n hn
    cases l with
    | nil => simp [phRefsAux] at hn
    | cons c rest =>
      simp only [pyFormatAux] at h
      simp only [phRefsAux] at hn
      by_cases hc : c = '{'
      · rw [if_pos hc] at h hn
        cases hd : rest.dropWhile (fun x => x ≠ '}') with
        | nil =>
          simp only [hd] at h
          exact Option.noConfusion h
        | cons x rest' =>
          simp only [hd] at h hn
          cases he : env (String.mk (rest.takeWhile (fun x => x ≠ '}'))) with
          | none =>
            simp only [he] at h
            exact Option.noConfusion h
          | some v =>
            simp only [he] at h
            rcases List.mem_cons.mp hn with rfl | hn'
            · simp only [ne_eq, decide_not] at he ⊢
              simp [he]
            · exact ih (v.reverse ++ acc) rest' s h n hn'
      · rw [if_neg hc] at h hn
        exact ih (c :: acc) rest s h n hn

theorem phRefsAux_brace : ∀ (fuel : Nat) (l : List Char) (n : String),
    n ∈ phRefsAux fuel l → '{' ∈ l := by
  intro fuel
  induction fuel with
  | zero =>
    intro l n hn
    cases l with
    | nil => simp [phRefsAux] at hn
    | cons c rest => simp [phRefsAux] at hn
  | succ fuel ih =>
    intro l n hn
    cases l with
    | nil => simp [phRefsAux] at hn
    | cons c rest =>
      simp only [phRefsAux] at hn
      by_cases hc : c = '{'
      · rw [hc]
        exact List.mem_cons_self '{' rest
      · rw [if_neg hc] at hn
        exact List.mem_cons_of_mem c (ih rest n hn)

theorem resolve_of_brace {arg : List Char} (h : '{' ∈ arg) :
    resolve_template arg = arg := by
  have h1 : (arg == "mit".data) = false := by
    cases hb : arg == "mit".data
    · rfl
    · exact absurd (eq_of_beq hb ▸ h) (by decide)
  have h2 : (arg == "gpl3".data) = false := by
    cases hb : arg == "gpl3".data
    · rfl
    · exact absurd (eq_of_beq hb ▸ h) (by decide)
  have h3 : (arg == "apache2".data) = false := by
    cases hb : arg == "apache2".data
    · rfl
    · exact absurd (eq_of_beq hb ▸ h) (by decide)
  simp [resolve_template, LICENSE_TEMPLATES, List.lookup, h1, h2, h3]

/-- C7: a template body referencing a placeholder other than `year` and
`author` that is not supplied via custom variables makes formatting fail,
and the failure propagates out of the file processor and the single-file
apply as an error rather than being absorbed into a skip/zero outcome. -/
theorem c7_format_error_propagates (template author path content cs ce : List Char)
    (year : Nat) (custom : List (String × List Char)) (name : String) (force : Bool)
    (href : name ∈ phRefs template)
    (hy : name ≠ "year") (ha : name ≠ "author")
    (hcust : custom.lookup name = none)
    (hstyle : get_comment_style path = some (cs, ce))
    (hreach : has_license_header content cs = false ∨ force = true) :
    format_license_text template author year custom = none ∧
    process_file_with_license path template author year custom force content =
      .error () ∧
    apply_license_file false path template author year custom force content =
      .error () := by
  have henv : fmt_env author year custom name = none := by
    simp [fmt_env, hcust, hy, ha]
  have hfmt : format_license_text template author year custom = none := by
    unfold format_license_text pyFormat
    cases hf : pyFormatAux (fmt_env author year custom) template.length [] template with
    | none => rfl
    | some s =>
      have hsome := pyFormatAux_refs _ _ _ _ _ hf name href
      rw [henv] at hsome
      cases hsome
  have hchd : create_license_header template author year custom cs ce = none := by
    simp [create_license_header, hfmt]
  have hcond : (has_license_header content cs && !force) = false := by
    rcases hreach with h | h
    · simp [h]
    · simp [h]
  have hproc : process_file_with_license path template author year custom force content =
      .error () := by
    simp [process_file_with_license, hstyle, hcond, hchd]
  have happ : apply_license_file false path template author year custom force content =
      .error () := by
    have hres : resolve_template template = template :=
      resolve_of_brace (phRefsAux_brace template.length template name href)
    simp [apply_license_file, hres, hproc]
  exact ⟨hfmt, hproc, happ⟩

/-- C7 witness: a template with the unsupplied placeholder `license_name`
makes the processor raise on a plain unlicensed Python file. -/
theorem c7_witness :
    process_file_with_license "a.py".data "Hello {license_name}".data "A".data 2024 [] false
      "x".data = .error () :=
  (c7_format_error_propagates "Hello {license_name}".data "A".data "a.py".data "x".data
    "#".data "".data 2024 [] "license_name" false (by decide) (by decide) (by decide) rfl
    (by decide) (Or.inl (by decide))).2.1

theorem splitNl_cons_nl (b : List Char) : splitNl ('\n' :: b) = [] :: splitNl b := by
  cases h : splitNl b with
  | nil => exact absurd h (splitNl_ne_nil b)
  | cons a as => rw [splitNl_cons_eq '\n' b h, if_pos rfl]

theorem create_license_header_cases {template author cs ce : List Char} {year : Nat}
    {custom : List (String × List Char)} {hls : List (List Char)}
    (h : create_license_header template author year custom cs ce = some hls) :
    hls ≠ [] ∧ ('\n' ∉ cs → '\n' ∉ ce → ∀ l ∈ hls, '\n' ∉ l) := by
  unfold create_license_header at h
  cases hf : format_license_text template author year custom with
  | none =>
    rw [hf] at h
    exact Option.noConfusion h
  | some txt =>
    simp only [hf] at h
    by_cases hce : ce.isEmpty = true
    · rw [if_pos hce] at h
      obtain rfl := (Option.some.injEq _ _ ▸ h).symm
      constructor
      · intro hnil
        rw [List.map_eq_nil_iff] at hnil
        exact splitNl_ne_nil _ hnil
      · intro hcs _ l hl
        obtain ⟨l₀, hl₀, rfl⟩ := List.mem_map.mp hl
        by_cases he : (pyStrip l₀).isEmpty = true
        · rw [if_pos he]
          exact hcs
        · rw [if_neg he]
          intro hmem
          rcases List.mem_append.mp hmem with h1 | h1
          · exact hcs h1
          · rcases List.mem_cons.mp h1 with h2 | h2
            · exact absurd h2 (by decide)
            · exact not_nl_mem_splitNl _ l₀ hl₀ h2
    · rw [if_neg hce] at h
      obtain rfl := (Option.some.injEq _ _ ▸ h).symm
      constructor
      · simp
      · intro hcs hce' l hl
        rcases List.mem_append.mp hl with h1 | h1
        · rcases List.mem_append.mp h1 with h2 | h2
          · rw [List.mem_singleton] at h2
            subst h2
            exact hcs
          · obtain ⟨l₀, hl₀, rfl⟩ := List.mem_map.mp h2
            by_cases he : (pyStrip l₀).isEmpty = true
            · rw [if_pos he]
              simp
            · rw [if_neg he]
              intro hmem
              rcases List.mem_cons.mp hmem with h2 | h2
              · exact absurd h2 (by decide)
              · exact not_nl_mem_splitNl _ l₀ hl₀ h2
        · rw [List.mem_singleton] at h1
          subst h1
          exact hce'

theorem not_break_mem_pySplitlines : ∀ (l : List Char), ∀ s ∈ pySplitlines l,
    ∀ c ∈ s, isLineBreak c = false := by
  intro l
  induction l using pySplitlines.induct with
  | case1 =>
    intro s hs
    simp [pySplitlines] at hs
  | case2 c hb =>
    intro s hs c' hc'
    simp only [pySplitlines, if_pos hb] at hs
    simp only [List.mem_singleton] at hs
    subst hs
    simp at hc'
  | case3 c hb =>
    intro s hs c' hc'
    simp only [pySplitlines, if_neg hb] at hs
    simp only [List.mem_singleton] at hs
    subst hs
    rcases List.mem_cons.mp hc' with rfl | h2
    · revert hb
      cases isLineBreak c' <;> simp
    · simp at h2
  | case4 c d rest hcd ih =>
    intro s hs c' hc'
    simp only [pySplitlines, if_pos hcd] at hs
    rcases List.mem_cons.mp hs with rfl | h2
    · simp at hc'
    · exact ih s h2 c' hc'
  | case5 c d rest hcd hb ih =>
    intro s hs c' hc'
    simp only [pySplitlines, if_neg hcd, if_pos hb] at hs
    rcases List.mem_cons.mp hs with rfl | h2
    · simp at hc'
    · exact ih s h2 c' hc'
  | case6 c d rest hcd hb hnil ih =>
    intro s hs c' hc'
    simp only [pySplitlines, if_neg hcd, if_neg hb, hnil] at hs
    simp only [List.mem_singleton] at hs
    subst hs
    rcases List.mem_cons.mp hc' with rfl | h2
    · revert hb
      cases isLineBreak c' <;> simp
    · simp at h2
  | case7 c d rest hcd hb a as hcons ih =>
    intro s hs c' hc'
    simp only [pySplitlines, if_neg hcd, if_neg hb, hcons] at hs
    rcases List.mem_cons.mp hs with rfl | h2
    · rcases List.mem_cons.mp hc' with rfl | h2
      · revert hb
        cases isLineBreak c' <;> simp
      · exact ih a (by rw [hcons]; exact List.mem_cons_self a as) c' h2
    · exact ih s (by rw [hcons]; exact List.mem_cons_of_mem a h2) c' hc'

theorem not_nl_mem_pySplitlines {l s : List Char} (hs : s ∈ pySplitlines l) : '\n' ∉ s := by
  intro hmem
  have := not_break_mem_pySplitlines l s hs '\n' hmem
  simp [isLineBreak] at this

/-- C8: for a supported file whose first line begins with `#!` and whose
content does not pass the header-presence test, processing keeps that line
verbatim as line 1, then the header block from line 2, then a blank
separator line, then the remaining original lines. -/
theorem c8_shebang_preserved (path template author content cs ce l0 : List Char)
    (rest : List (List Char)) (hls : List (List Char)) (year : Nat)
    (custom : List (String × List Char)) (force : Bool)
    (hstyle : get_comment_style path = some (cs, ce))
    (hcs : '\n' ∉ cs) (hce : '\n' ∉ ce)
    (hsplit : pySplitlines content = l0 :: rest)
    (hshebang : "#!".data.isPrefixOf l0 = true)
    (hhdr : has_license_header content cs = false)
    (hchd : create_license_header template author year custom cs ce = some hls) :
    process_file_with_license path template author year custom force content =
      .ok (some (l0 ++ '\n' :: (joinNl hls ++ '\n' :: '\n' :: joinNl rest))) ∧
    splitNl (l0 ++ '\n' :: (joinNl hls ++ '\n' :: '\n' :: joinNl rest)) =
      l0 :: (hls ++ [] :: splitNl (joinNl rest)) := by
  obtain ⟨hne, hnl⟩ := create_license_header_cases hchd
  have hl0 : '\n' ∉ l0 :=
    not_nl_mem_pySplitlines (hsplit ▸ List.mem_cons_self l0 rest)
  constructor
  · simp [process_file_with_license, hstyle, hhdr, hchd, hsplit, hshebang]
  · rw [splitNl_append_nl _ hl0]
    rw [splitNl_join_append hls _ hne (hnl hcs hce)]
    rw [splitNl_cons_nl]

/-- C8 witness: a shell script keeps its shebang as line 1 with the header
from line 2. -/
theorem c8_witness :
    process_file_with_license "s.sh".data "Copyright {year} {author}".data "A".data 2023 []
      false "#!/bin/sh\ncode".data =
      .ok (some ("#!/bin/sh".data ++ '\n' ::
        (joinNl ["# Copyright 2023 A".data] ++ '\n' :: '\n' :: joinNl ["code".data]))) ∧
    splitNl ("#!/bin/sh".data ++ '\n' ::
        (joinNl ["# Copyright 2023 A".data] ++ '\n' :: '\n' :: joinNl ["code".data])) =
      "#!/bin/sh".data :: (["# Copyright 2023 A".data] ++ [] :: splitNl (joinNl ["code".data])) :=
  c8_shebang_preserved "s.sh".data "Copyright {year} {author}".data "A".data
    "#!/bin/sh\ncode".data "#".data "".data "#!/bin/sh".data ["code".data]
    ["# Copyright 2023 A".data] 2023 [] false (by decide) (by decide) (by decide)
    (by decide) (by decide) (by decide) (by decide)

/-- C10: for an XML-preamble-sensitive file whose first line is not a
declaration but whose second line is, the branch is entered with an empty
preserved declaration run, so the result begins with an empty line, then
the header block, a blank separator, and the entire original content with
the declaration still in its original relative position. -/
theorem c10_xml_late_declaration (path template author content cs ce l0 l1 : List Char)
    (rest : List (List Char)) (hls : List (List Char)) (year : Nat)
    (custom : List (String × List Char)) (force : Bool)
    (hstyle : get_comment_style path = some (cs, ce))
    (hxml : is_special_xml_file path = true)
    (hsplit : pySplitlines content = l0 :: l1 :: rest)
    (hnotshebang : "#!".data.isPrefixOf l0 = false)
    (hl0 : isXmlDecl l0 = false)
    (hl1 : isXmlDecl l1 = true)
    (hhdr : has_license_header content cs = false)
    (hchd : create_license_header template author year custom cs ce = some hls) :
    (l0 :: l1 :: rest).takeWhile isXmlDecl = [] ∧
    process_file_with_license path template author year custom force content =
      .ok (some ('\n' :: (joinNl hls ++ '\n' :: '\n' :: joinNl (l0 :: l1 :: rest)))) := by
  have htake : (l0 :: l1 :: rest).takeWhile isXmlDecl = [] := by
    rw [List.takeWhile_cons, hl0]
    simp
  have hdrop : (l0 :: l1 :: rest).dropWhile isXmlDecl = l0 :: l1 :: rest := by
    rw [List.dropWhile_cons, hl0]
    simp
  have hany : ((l0 :: l1 :: rest).take 2).any isXmlDecl = true := by
    simp [List.any_cons, hl0, hl1]
  refine ⟨htake, ?_⟩
  simp only [process_file_with_license, hstyle, hhdr, hchd, hsplit, hnotshebang, hxml, hany,
    htake, hdrop, joinNl, Bool.false_and, Bool.and_self, Bool.true_and, Bool.if_false_left,
    Bool.not_false, if_true, if_false, List.nil_append]
  simp

/-- C10 witness: an XML file whose declaration is on line 2. -/
theorem c10_witness :
    process_file_with_license "t.xml".data "C {year}".data "A".data 2023 [] false
      "<x/>\n<?xml version=\"1.0\"?>\nbody".data =
      .ok (some ('\n' :: (joinNl ["<!--".data, " C 2023".data, "-->".data] ++ '\n' :: '\n' ::
        joinNl ["<x/>".data, "<?xml version=\"1.0\"?>".data, "body".data]))) :=
  (c10_xml_late_declaration "t.xml".data "C {year}".data "A".data
    "<x/>\n<?xml version=\"1.0\"?>\nbody".data "<!--".data "-->".data
    "<x/>".data "<?xml version=\"1.0\"?>".data ["body".data]
    ["<!--".data, " C 2023".data, "-->".data] 2023 [] false
    (by decide) (by decide) (by decide) (by decide) (by decide) (by decide) (by decide)
    (by decide)).2

theorem pySplitlines_eq_splitNl : ∀ (l : List Char), l ≠ [] →
    (∀ c ∈ l, isLineBreak c = true → c = '\n') → l.getLast? ≠ some '\n' →
    pySplitlines l = splitNl l := by
  intro l
  induction l using pySplitlines.induct with
  | case1 => intro hne; exact absurd rfl hne
  | case2 c hb =>
    intro _ honly hlast
    have hc : c = '\n' := honly c (List.mem_singleton.mpr rfl) hb
    subst hc
    simp at hlast
  | case3 c hb =>
    intro _ _ _
    have hc : c ≠ '\n' := by
      intro hc
      subst hc
      exact hb (by simp [isLineBreak])
    simp only [pySplitlines, if_neg hb]
    rw [splitNl_of_not_mem (by
      intro hmem
      rw [List.mem_singleton] at hmem
      exact hc hmem.symm)]
  | case4 c d rest hcd ih =>
    intro _ honly _
    obtain ⟨rfl, rfl⟩ := hcd
    have : ('\r' : Char) = '\n' :=
      honly '\r' (List.mem_cons_self _ _) (by simp [isLineBreak])
    exact absurd this (by decide)
  | case5 c d rest hcd hb ih =>
    intro _ honly hlast
    have hc : c = '\n' := honly c (List.mem_cons_self _ _) hb
    subst hc
    have honly' : ∀ x ∈ d :: rest, isLineBreak x = true → x = '\n' :=
      fun x hx => honly x (List.mem_cons_of_mem _ hx)
    have hlast' : (d :: rest).getLast? ≠ some '\n' := by
      rwa [List.getLast?_cons_cons] at hlast
    simp only [pySplitlines, if_neg hcd, if_pos hb]
    rw [ih (by simp) honly' hlast', splitNl_cons_nl]
  | case6 c d rest hcd hb hnil ih =>
    intro _ honly hlast
    have honly' : ∀ x ∈ d :: rest, isLineBreak x = true → x = '\n' :=
      fun x hx => honly x (List.mem_cons_of_mem _ hx)
    have hlast' : (d :: rest).getLast? ≠ some '\n' := by
      rwa [List.getLast?_cons_cons] at hlast
    rw [ih (by simp) honly' hlast'] at hnil
    exact absurd hnil (splitNl_ne_nil _)
  | case7 c d rest hcd hb a as hcons ih =>
    intro _ honly hlast
    have honly' : ∀ x ∈ d :: rest, isLineBreak x = true → x = '\n' :=
      fun x hx => honly x (List.mem_cons_of_mem _ hx)
    have hlast' : (d :: rest).getLast? ≠ some '\n' := by
      rwa [List.getLast?_cons_cons] at hlast
    have hc : c ≠ '\n' := by
      intro hc
      subst hc
      exact hb (by simp [isLineBreak])
    have hsn : splitNl (d :: rest) = a :: as := by
      rw [← ih (by simp) honly' hlast']
      exact hcons
    simp only [pySplitlines, if_neg hcd, if_neg hb, hcons]
    rw [splitNl_cons_eq c (d :: rest) hsn, if_neg hc]

/-- C2 counterexample: on content ending with a newline, the force branch
(which rejoins `splitlines`) drops the trailing newline while the default
branch keeps the original content, so the two outputs differ. -/
theorem c2_counterexample :
    process_file_with_license "a.py".data "Copyright {year}".data "A".data 2023 [] true
      "x\n".data = .ok (some "# Copyright 2023\n\nx".data) ∧
    process_file_with_license "a.py".data "Copyright {year}".data "A".data 2023 [] false
      "x\n".data = .ok (some "# Copyright 2023\n\nx\n".data) ∧
    "# Copyright 2023\n\nx".data ≠ "# Copyright 2023\n\nx\n".data :=
  ⟨rfl, rfl, by decide⟩

/-- C2 (amended): in the regular-file case, the force = true branch and the
force = false branch produce identical output for every content whose only
line-break character is `\n` and which does not end with a line break; they
differ in general (e.g. on content ending with a newline). -/
theorem c2_force_branch_equals_default (path template author content cs ce l0 : List Char)
    (rest : List (List Char)) (year : Nat) (custom : List (String × List Char))
    (hstyle : get_comment_style path = some (cs, ce))
    (hsplit : pySplitlines content = l0 :: rest)
    (hnotshebang : "#!".data.isPrefixOf l0 = false)
    (hnotxml : (is_special_xml_file path && ((l0 :: rest).take 2).any isXmlDecl) = false)
    (hhdr : has_license_header content cs = false)
    (hne : content ≠ [])
    (honly : ∀ c ∈ content, isLineBreak c = true → c = '\n')
    (hlast : content.getLast? ≠ some '\n') :
    process_file_with_license path template author year custom true content =
      process_file_with_license path template author year custom false content := by
  have hjoin : joinNl (pySplitlines content) = content := by
    rw [pySplitlines_eq_splitNl content hne honly hlast, joinNl_splitNl]
  cases hchd : create_license_header template author year custom cs ce with
  | none => simp [process_file_with_license, hstyle, hhdr, hchd]
  | some hls =>
    simp only [process_file_with_license, hstyle, hhdr, hchd, hsplit, hnotshebang, hnotxml,
      Bool.false_and, Bool.and_false, Bool.not_true, Bool.not_false, Bool.false_eq_true,
      if_false, if_true]
    rw [← hsplit, hjoin]

/-- C2 witness: the amended equivalence at a concrete file with no trailing
newline. -/
theorem c2_witness :
    process_file_with_license "a.py".data "Copyright {year}".data "A".data 2023 [] true
      "x".data =
    process_file_with_license "a.py".data "Copyright {year}".data "A".data 2023 [] false
      "x".data :=
  c2_force_branch_equals_default "a.py".data "Copyright {year}".data "A".data "x".data
    "#".data "".data "x".data [] 2023 [] (by decide) (by decide) (by decide) (by decide)
    (by decide) (by decide) (by decide) (by decide)

set_option maxRecDepth 100000 in
/-- C1 counterexample: for the registered block-comment style `<!-- -->`,
the synthesized MIT header is NOT detected by the header-presence test: the
opening line is the bare marker with no indicator word, and the body lines
start with a space, not with the marker. -/
theorem c1_counterexample :
    has_license_header (buildHeaderAsText mit_template "<!--".data "-->".data) "<!--".data
      = false := by decide

set_option maxRecDepth 100000 in
/-- C1 (amended): for every registered license template and every registered
comment style with an empty comment-end marker (the line-comment styles `#`
and `//`), rendering the synthesized header block as text and running the
header-presence test on it with that style's comment-start marker returns
true.  (For the block-comment styles the round trip fails, see the
counterexample.) -/
theorem c1_line_style_roundtrip :
    (LICENSE_TEMPLATES.all fun tp =>
      PATTERNS.all fun p =>
        !p.comment_end.isEmpty ||
          has_license_header (buildHeaderAsText tp.2 p.comment_start p.comment_end)
            p.comment_start) = true := by decide
